import Mathlib

/-!
# Verification of the `rody` rigid-block simulator

Shallow embedding of the repository sources (`src/block.rs`,
`src/timeline.rs`, `src/main.rs`) in Lean 4.  The host language's `f64`
scalars are embedded as exact rationals `ℚ`; every arithmetic operation the
programs perform (addition, subtraction, multiplication, division by a
nonzero count) is modelled exactly.  A separate, minimal model of the IEEE
binary64 special values (`infinity`, `-infinity`, `NaN`) is given at the end
of the file for the one construction path (`nstep = 0`) that produces a
division by zero in the host numeric type.
-/

namespace Rody

/-- Coordinates of the external `mersh` algebra types.
Modelled from the spec: the vector/point algebra dependency is external to
the repository ("3-component value types", "component read access (x,y,z)",
"in-place operation `add_in(scale, other)` performing `self += scale *
other`"). -/
structure Coord3d where
  x : ℚ
  y : ℚ
  z : ℚ
deriving DecidableEq

/-- Modelled from the spec: in-place scaled add `self += scale * other` of
the external algebra dependency. -/
def Coord3d.add_in (c : Coord3d) (scale : ℚ) (other : Coord3d) : Coord3d :=
  ⟨c.x + scale * other.x, c.y + scale * other.y, c.z + scale * other.z⟩

/-- Modelled from the spec: 3D point of the external algebra dependency. -/
structure Pnt3d where
  coords : Coord3d
deriving DecidableEq

/-- Modelled from the spec: construction of a point from three scalars. -/
def Pnt3d.new (x y z : ℚ) : Pnt3d := ⟨⟨x, y, z⟩⟩

/-- Modelled from the spec: 3D vector of the external algebra dependency. -/
structure Vec3d where
  coords : Coord3d
deriving DecidableEq

/-- Modelled from the spec: construction of a vector from three scalars. -/
def Vec3d.new (x y z : ℚ) : Vec3d := ⟨⟨x, y, z⟩⟩

/-- Zero coordinates, the `Default` value of the algebra types. -/
def Coord3d.default : Coord3d := ⟨0, 0, 0⟩

/-- `Pnt3d::default()`. -/
def Pnt3d.default : Pnt3d := ⟨Coord3d.default⟩

/-- `Vec3d::default()`. -/
def Vec3d.default : Vec3d := ⟨Coord3d.default⟩

/-- `Block` (src/block.rs): total mass, per-axis lengths, center-of-mass
position and velocity. -/
structure Block where
  mass : ℚ
  lengths : Fin 3 → ℚ
  position : Pnt3d
  velocity : Vec3d

/-- `Block::default()`: the derived `Default` zero-initializes every field. -/
def Block.default : Block :=
  { mass := 0, lengths := fun _ => 0
    position := Pnt3d.default, velocity := Vec3d.default }

/-- `Block::get_volume` (src/block.rs:159-162):
`lengths[0] * lengths[1] * lengths[2]`. -/
def Block.get_volume (b : Block) : ℚ :=
  b.lengths 0 * b.lengths 1 * b.lengths 2

/-- `BlockBuilder` (src/block.rs): holds the block under construction. -/
structure BlockBuilder where
  block : Block

/-- `BlockBuilder::new()`: internal components initialized to defaults. -/
def BlockBuilder.new : BlockBuilder := ⟨Block.default⟩

/-- `BlockBuilder::set_mass_density`: stores the density in the staged
`mass` field; total mass is computed in `get()`. -/
def BlockBuilder.set_mass_density (bb : BlockBuilder) (mass_density : ℚ) :
    BlockBuilder :=
  ⟨{ bb.block with mass := mass_density }⟩

/-- `BlockBuilder::set_lengths`: overwrites the three staged lengths. -/
def BlockBuilder.set_lengths (bb : BlockBuilder) (lx ly lz : ℚ) :
    BlockBuilder :=
  ⟨{ bb.block with lengths := ![lx, ly, lz] }⟩

/-- `BlockBuilder::set_initial_position`. -/
def BlockBuilder.set_initial_position (bb : BlockBuilder) (px py pz : ℚ) :
    BlockBuilder :=
  ⟨{ bb.block with position := Pnt3d.new px py pz }⟩

/-- `BlockBuilder::set_initial_velocity`. -/
def BlockBuilder.set_initial_velocity (bb : BlockBuilder) (vx vy vz : ℚ) :
    BlockBuilder :=
  ⟨{ bb.block with velocity := Vec3d.new vx vy vz }⟩

/-- `BlockBuilder::get` (src/block.rs:128-137): multiplies the staged mass
(density) by the staged volume, hands the block out by value and resets the
builder to `Block::default()`.  The Rust method mutates `&mut self` and
returns the block; we return the pair (built block, builder after the call). -/
def BlockBuilder.get (bb : BlockBuilder) : Block × BlockBuilder :=
  let finalized := { bb.block with mass := bb.block.mass * bb.block.get_volume }
  (finalized, ⟨Block.default⟩)

/-- `forward` (src/main.rs:6-9):
`block.position.coords.add_in(ts, &block.velocity.coords)`. -/
def forward (block : Block) (ts : ℚ) : Block :=
  { block with
    position := ⟨block.position.coords.add_in ts block.velocity.coords⟩ }

/-- `RegularTimeLine` (src/timeline.rs). -/
structure RegularTimeLine where
  max_time : ℚ
  time_step : ℚ
  current_time : ℚ
deriving DecidableEq

/-- `RegularTimeLine::new` (src/timeline.rs:35-42): `dt` starts at `0` and
is set to `(max - min) / nstep` only when `min < max`. -/
def RegularTimeLine.new (min max : ℚ) (nstep : ℕ) : RegularTimeLine :=
  let dt : ℚ := if min < max then (max - min) / (nstep : ℚ) else 0
  { max_time := max, time_step := dt, current_time := min }

/-- `RegularTimeLine::next` (src/timeline.rs:67-74): mutates `&mut self`;
we return the yielded value together with the timeline after the call. -/
def RegularTimeLine.next (tl : RegularTimeLine) :
    Option ℚ × RegularTimeLine :=
  if tl.current_time < tl.max_time then
    (some tl.current_time, { tl with current_time := tl.current_time + tl.time_step })
  else
    (none, tl)

/-- Fuel-bounded iteration of `next`, collecting the yielded samples in
order, stopping at the first `None` (iterator exhaustion). -/
def RegularTimeLine.takeSamples : ℕ → RegularTimeLine → List ℚ
  | 0, _ => []
  | n + 1, tl =>
    match tl.next with
    | (some t, tl') => t :: takeSamples n tl'
    | (none, _) => []

/-! ## Block formatter (src/block.rs:180-227) -/

/-- Modelled from the spec: `str::split_whitespace` of the host language
("a whitespace-separated list of ... tokens"), as a character-level
splitter; `cur` holds the characters of the fragment being read, in
reverse. Empty fragments between consecutive separators are not produced. -/
def splitWhitespaceAux : List Char → List Char → List String
  | [], cur => if cur.isEmpty then [] else [String.mk cur.reverse]
  | c :: rest, cur =>
    if c.isWhitespace then
      if cur.isEmpty then splitWhitespaceAux rest []
      else String.mk cur.reverse :: splitWhitespaceAux rest []
    else splitWhitespaceAux rest (c :: cur)

/-- `str::split_whitespace` on a string. -/
def splitWhitespace (s : String) : List String :=
  splitWhitespaceAux s.toList []

/-- Modelled from the spec: `str::to_lowercase` of the host language
("case-insensitive tokens"), character by character. -/
def toLowercase (s : String) : String :=
  String.mk (s.toList.map Char.toLower)

/-- One arm of the `match` in `BlockFormatter::parse_data_str`
(src/block.rs:191-202): the channel indices a single (already
lowercased) token pushes, unknown tokens pushing nothing. -/
def tokenIndices (s : String) : List ℕ :=
  match s with
  | "_" => [0, 1, 2, 3, 4, 5]
  | "p" => [0, 1, 2]
  | "v" => [3, 4, 5]
  | "px" => [0]
  | "py" => [1]
  | "pz" => [2]
  | "vx" => [3]
  | "vy" => [4]
  | "vz" => [5]
  | _ => []

/-- `BlockFormatter` (src/block.rs:26-34): the borrowed block is carried by
value in the embedding. -/
structure BlockFormatter where
  block : Block
  data_index : List ℕ
  decimal : ℕ

/-- `BlockFormatter::parse_data_str` (src/block.rs:185-205): split the
selector at whitespace, lowercase each token and accumulate its channel
indices in order. -/
def BlockFormatter.parse_data_str (data_str : String) : List ℕ :=
  (splitWhitespace data_str).foldl
    (fun data_index s => data_index ++ tokenIndices (toLowercase s)) []

/-- `Block::format` (src/block.rs:164-171). -/
def Block.format (b : Block) (data_str : String) (decimal : ℕ) :
    BlockFormatter :=
  { block := b, data_index := BlockFormatter.parse_data_str data_str
    decimal := decimal }

/-- The `d` decimal digits (most significant first) of `m % 10 ^ d`,
least-significant digit produced from `m % 10` at each step. -/
def fracChars : ℕ → ℕ → List Char
  | 0, _ => []
  | d + 1, m => fracChars d (m / 10) ++ [Nat.digitChar (m % 10)]

/-- Modelled from the spec: the host standard library's fixed-precision
rendering `write!(f, "{:.*}", decimal, value)` ("formatted with fixed
`decimal` fractional digits").  The value is rounded to `decimal` fractional
digits; a sign is printed for negative values; for `decimal = 0` no decimal
point is printed. -/
def fmtFixed (q : ℚ) (d : ℕ) : String :=
  let n : ℕ := (⌊|q| * 10 ^ d + 1 / 2⌋).toNat
  let sign := if q < 0 then "-" else ""
  if d = 0 then sign ++ toString (n / 10 ^ d)
  else sign ++ toString (n / 10 ^ d) ++ "." ++ String.mk (fracChars d n)

/-- One arm of the `match` in the `Display` implementation
(src/block.rs:215-223): what one entry of `data_index` writes, the
fall-through arm writing nothing. -/
def writeIndex (b : Block) (d : ℕ) (index : ℕ) : String :=
  match index with
  | 0 => " " ++ fmtFixed b.position.coords.x d ++ " "
  | 1 => " " ++ fmtFixed b.position.coords.y d ++ " "
  | 2 => " " ++ fmtFixed b.position.coords.z d ++ " "
  | 3 => " " ++ fmtFixed b.velocity.coords.x d ++ " "
  | 4 => " " ++ fmtFixed b.velocity.coords.y d ++ " "
  | 5 => " " ++ fmtFixed b.velocity.coords.z d ++ " "
  | _ => ""

/-- `<BlockFormatter as Display>::fmt` (src/block.rs:208-227): loop over
`data_index`, appending what each index writes to the output. -/
def BlockFormatter.render (fmtr : BlockFormatter) : String :=
  fmtr.data_index.foldl (fun acc index => acc ++ writeIndex fmtr.block fmtr.decimal index) ""

/-- The number of fractional digits of a rendered scalar: the length of the
maximal suffix not containing `'.'`. -/
def fracDigitCount (s : String) : ℕ :=
  (s.toList.reverse.takeWhile (fun c => c != '.')).length

/-- The scalar of channel `index` (0-5 are px,py,pz,vx,vy,vz); a total
function, `0` outside the range, used to express that the fall-through arm
of the `Display` match never fires. -/
def channelValue (b : Block) (index : ℕ) : ℚ :=
  match index with
  | 0 => b.position.coords.x
  | 1 => b.position.coords.y
  | 2 => b.position.coords.z
  | 3 => b.velocity.coords.x
  | 4 => b.velocity.coords.y
  | 5 => b.velocity.coords.z
  | _ => 0

/-! ## IEEE special values

A minimal model of the IEEE binary64 values for the one code path
(`RegularTimeLine::new` with `nstep = 0`) whose host-language semantics
leaves the rationals: exact finite values extended with the two infinities
and NaN, with the host's comparison, addition, subtraction and
division-by-a-count on them. -/

/-- An `f64` value: an exact finite rational, `+inf`, `-inf`, or NaN.
Rounding of finite results is not modelled (every finite operation the
program performs on this path is exact). -/
inductive F64 where
  | fin (q : ℚ)
  | inf
  | negInf
  | nan
deriving DecidableEq

/-- IEEE `<` on `f64`: NaN compares false with everything. -/
def F64.blt : F64 → F64 → Bool
  | .fin a, .fin b => decide (a < b)
  | .fin _, .inf => true
  | .negInf, .fin _ => true
  | .negInf, .inf => true
  | _, _ => false

/-- IEEE addition on `f64` (finite results exact). -/
def F64.add : F64 → F64 → F64
  | .nan, _ => .nan
  | _, .nan => .nan
  | .fin a, .fin b => .fin (a + b)
  | .inf, .negInf => .nan
  | .negInf, .inf => .nan
  | .inf, _ => .inf
  | _, .inf => .inf
  | .negInf, _ => .negInf
  | _, .negInf => .negInf

/-- IEEE subtraction on `f64` (finite results exact). -/
def F64.sub : F64 → F64 → F64
  | .nan, _ => .nan
  | _, .nan => .nan
  | .fin a, .fin b => .fin (a - b)
  | .inf, .inf => .nan
  | .negInf, .negInf => .nan
  | .inf, _ => .inf
  | _, .inf => .negInf
  | .negInf, _ => .negInf
  | _, .negInf => .inf

/-- IEEE division of an `f64` by a nonnegative count `(nstep as f64)`:
division of a nonzero value by `+0.0` gives the signed infinity, `0/0`
gives NaN. -/
def F64.divNat : F64 → ℕ → F64
  | .nan, _ => .nan
  | .fin a, 0 => if 0 < a then .inf else if a < 0 then .negInf else .nan
  | .fin a, n + 1 => .fin (a / (n + 1 : ℕ))
  | .inf, _ => .inf
  | .negInf, _ => .negInf

/-- `RegularTimeLine` over the IEEE value model. -/
structure RegularTimeLine64 where
  max_time : F64
  time_step : F64
  current_time : F64
deriving DecidableEq

/-- `RegularTimeLine::new` (src/timeline.rs:35-42) over the IEEE value
model: `dt = (max - min) / (nstep as f64)` when `min < max`. -/
def RegularTimeLine64.new (min max : F64) (nstep : ℕ) : RegularTimeLine64 :=
  let dt : F64 := if F64.blt min max then F64.divNat (F64.sub max min) nstep else .fin 0
  { max_time := max, time_step := dt, current_time := min }

/-- `RegularTimeLine::next` (src/timeline.rs:67-74) over the IEEE value
model. -/
def RegularTimeLine64.next (tl : RegularTimeLine64) :
    Option F64 × RegularTimeLine64 :=
  if F64.blt tl.current_time tl.max_time then
    (some tl.current_time,
      { tl with current_time := tl.current_time.add tl.time_step })
  else
    (none, tl)

/-- Fuel-bounded iteration of `RegularTimeLine64.next`. -/
def RegularTimeLine64.takeSamples : ℕ → RegularTimeLine64 → List F64
  | 0, _ => []
  | n + 1, tl =>
    match tl.next with
    | (some t, tl') => t :: takeSamples n tl'
    | (none, _) => []

/-! ## Helper lemmas -/

/-- An exhausted timeline stays exhausted: with `next` returning `None`,
iteration yields nothing for any fuel. -/
lemma takeSamples_of_next_none (tl : RegularTimeLine) (h : tl.next.1 = none) :
    ∀ n, tl.takeSamples n = [] := by
  intro n
  cases n with
  | zero => rfl
  | succ n =>
    rcases htl : tl.next with ⟨o, tl'⟩
    rw [htl] at h
    simp only at h
    subst h
    simp [RegularTimeLine.takeSamples, htl]

/-- If iteration with fuel `n` already exhausts the timeline (yields fewer
than `n` samples), any larger fuel yields the same samples. -/
lemma takeSamples_stable :
    ∀ (n : ℕ) (tl : RegularTimeLine), (tl.takeSamples n).length < n →
      ∀ m, n ≤ m → tl.takeSamples m = tl.takeSamples n := by
  intro n
  induction n with
  | zero => intro tl h; simp at h
  | succ n ih =>
    intro tl h m hm
    obtain ⟨m, rfl⟩ : ∃ m', m = m' + 1 := ⟨m - 1, by omega⟩
    rcases htl : tl.next with ⟨o, tl'⟩
    cases o with
    | none => simp [RegularTimeLine.takeSamples, htl]
    | some t =>
      have hlen : (tl'.takeSamples n).length < n := by
        simp only [RegularTimeLine.takeSamples, htl, List.length_cons] at h
        omega
      simp [RegularTimeLine.takeSamples, htl, ih tl' hlen m (by omega)]

/-- Accumulating string concatenation in a fold is joining. -/
lemma foldl_append_string (l : List String) :
    ∀ acc, l.foldl (· ++ ·) acc = acc ++ String.join l := by
  induction l with
  | nil =>
    intro acc
    rw [List.foldl_nil]
    exact (String.append_empty acc).symm
  | cons x xs ih =>
    intro acc
    have hx : String.join (x :: xs) = x ++ String.join xs := by
      show List.foldl (· ++ ·) "" (x :: xs) = _
      rw [List.foldl_cons, ih, String.empty_append]
    rw [List.foldl_cons, ih, hx, String.append_assoc]

/-- The rendering loop of the `Display` implementation concatenates, in
order, what each entry of `data_index` writes. -/
lemma render_eq_join (fmtr : BlockFormatter) :
    fmtr.render =
      String.join (fmtr.data_index.map (writeIndex fmtr.block fmtr.decimal)) := by
  have h1 : fmtr.render =
      (fmtr.data_index.map (writeIndex fmtr.block fmtr.decimal)).foldl (· ++ ·) "" :=
    (List.foldl_map (writeIndex fmtr.block fmtr.decimal) (· ++ ·) fmtr.data_index "").symm
  rw [h1, foldl_append_string, String.empty_append]

/-- Accumulating list concatenation in a fold is flat-mapping. -/
lemma foldl_append_list {α β : Type} (f : α → List β) (l : List α) :
    ∀ acc, l.foldl (fun a x => a ++ f x) acc = acc ++ l.flatMap f := by
  induction l with
  | nil => intro acc; simp
  | cons x xs ih =>
    intro acc
    rw [List.foldl_cons, ih, List.flatMap_cons, List.append_assoc]

/-- The parsing loop accumulates the per-token indices in token order. -/
lemma parse_data_str_eq_flatMap (s : String) :
    BlockFormatter.parse_data_str s =
      (splitWhitespace s).flatMap (fun t => tokenIndices (toLowercase t)) := by
  unfold BlockFormatter.parse_data_str
  rw [foldl_append_list, List.nil_append]

/-- Every channel index a single token pushes is below 6. -/
lemma tokenIndices_lt_six (s : String) (i : ℕ) (h : i ∈ tokenIndices s) :
    i < 6 := by
  unfold tokenIndices at h
  split at h <;> simp_all <;> omega

/-- A token outside the recognized set pushes no channel index. -/
lemma tokenIndices_eq_nil_of_unknown (t : String)
    (h : t ∉ (["_", "p", "v", "px", "py", "pz", "vx", "vy", "vz"] : List String)) :
    tokenIndices t = [] := by
  unfold tokenIndices
  split <;> simp_all

/-- `fracChars d m` has exactly `d` characters. -/
lemma fracChars_length : ∀ (d m : ℕ), (fracChars d m).length = d := by
  intro d
  induction d with
  | zero => intro m; rfl
  | succ d ih => intro m; simp [fracChars, ih]

/-- Every character produced by `fracChars` is a decimal digit, never a
point. -/
lemma fracChars_ne_dot : ∀ (d m : ℕ), ∀ c ∈ fracChars d m, c ≠ '.' := by
  have hdigit : ∀ k, k < 10 → Nat.digitChar k ≠ '.' := by decide
  intro d
  induction d with
  | zero => intro m c hc; simp [fracChars] at hc
  | succ d ih =>
    intro m c hc
    rw [fracChars, List.mem_append] at hc
    rcases hc with hc | hc
    · exact ih (m / 10) c hc
    · rw [List.mem_singleton] at hc
      subst hc
      exact hdigit (m % 10) (Nat.mod_lt m (by norm_num))

/-- `takeWhile` over a list whose prefix satisfies the predicate and whose
next element falsifies it returns exactly that prefix. -/
lemma takeWhile_append_eq {α : Type} (p : α → Bool) :
    ∀ (l1 : List α) (c : α) (l2 : List α), (∀ x ∈ l1, p x = true) → p c = false →
      (l1 ++ c :: l2).takeWhile p = l1 := by
  intro l1
  induction l1 with
  | nil =>
    intro c l2 _ hc
    simp [List.takeWhile_cons, hc]
  | cons a l ih =>
    intro c l2 h hc
    have ha : p a = true := h a (by simp)
    simp only [List.cons_append, List.takeWhile_cons, ha, if_true]
    rw [ih c l2 (fun x hx => h x (by simp [hx])) hc]

/-- With a positive digit count the rendered scalar carries exactly that
many fractional digits. -/
lemma fracDigitCount_fmtFixed (q : ℚ) (d : ℕ) :
    fracDigitCount (fmtFixed q (d + 1)) = d + 1 := by
  rw [fmtFixed]
  simp only [Nat.succ_ne_zero, if_false]
  set n : ℕ := (⌊|q| * 10 ^ (d + 1) + 1 / 2⌋).toNat with hn
  set pre : String := (if q < 0 then "-" else "") ++ toString (n / 10 ^ (d + 1)) with hpre
  have hdata : ((pre ++ "." ++ String.mk (fracChars (d + 1) n))).data
      = (pre.data ++ ['.']) ++ fracChars (d + 1) n := by
    rw [String.data_append, String.data_append]
  rw [fracDigitCount]
  show ((pre ++ "." ++ String.mk (fracChars (d + 1) n)).data.reverse.takeWhile
      (fun c => c != '.')).length = d + 1
  rw [hdata, List.reverse_append, List.reverse_append]
  have hrev : ((['.'] : List Char).reverse ++ pre.data.reverse)
      = '.' :: pre.data.reverse := by simp
  rw [hrev]
  rw [takeWhile_append_eq _ _ _ _ ?hall ?hdot]
  · rw [List.length_reverse, fracChars_length]
  case hall =>
    intro x hx
    rw [List.mem_reverse] at hx
    simpa using fracChars_ne_dot (d + 1) n x hx
  case hdot => rfl

/-- What an in-range entry of `data_index` writes is the corresponding
channel scalar, space-wrapped. -/
lemma writeIndex_eq_channel (b : Block) (d : ℕ) :
    ∀ i, i < 6 → writeIndex b d i = " " ++ fmtFixed (channelValue b i) d ++ " " := by
  intro i hi
  interval_cases i <;> rfl

/-- `{:.3}` rendering of `-0.1`. -/
lemma fmtFixed_neg_tenth : fmtFixed (-0.1 : ℚ) 3 = "-0.100" := by
  have hfl : (⌊|(-0.1 : ℚ)| * 10 ^ 3 + 1 / 2⌋ : ℤ) = 100 := by
    rw [Int.floor_eq_iff]
    constructor <;> norm_num [abs]
  simp only [fmtFixed, hfl]
  norm_num
  decide

/-- `{:.3}` rendering of `0`. -/
lemma fmtFixed_zero : fmtFixed (0 : ℚ) 3 = "0.000" := by
  have hfl : (⌊|(0 : ℚ)| * 10 ^ 3 + 1 / 2⌋ : ℤ) = 0 := by
    rw [Int.floor_eq_iff]
    constructor <;> norm_num [abs]
  simp only [fmtFixed, hfl]
  norm_num
  decide

/-- `{:.3}` rendering of `-1`. -/
lemma fmtFixed_neg_one : fmtFixed (-1 : ℚ) 3 = "-1.000" := by
  have hfl : (⌊|(-1 : ℚ)| * 10 ^ 3 + 1 / 2⌋ : ℤ) = 1000 := by
    rw [Int.floor_eq_iff]
    constructor <;> norm_num [abs]
  simp only [fmtFixed, hfl]
  norm_num
  decide

/-! ## Theorems -/

/-- C2: `RegularTimeLine::new(0, 1, 10)` yields exactly the ten samples
`0.0, 0.1, …, 0.9` and is then exhausted (more fuel yields nothing
further); the `i`-th sample is within `1e-10` of `i * 0.1` and the upper
bound `1.0` is never yielded. -/
theorem timeline_zero_one_ten_samples :
    (RegularTimeLine.new 0 1 10).takeSamples 11
        = [0, 0.1, 0.2, 0.3, 0.4, 0.5, 0.6, 0.7, 0.8, 0.9] ∧
    (∀ m, 11 ≤ m → (RegularTimeLine.new 0 1 10).takeSamples m
        = (RegularTimeLine.new 0 1 10).takeSamples 11) ∧
    ([0, 0.1, 0.2, 0.3, 0.4, 0.5, 0.6, 0.7, 0.8, 0.9] : List ℚ).length = 10 ∧
    (∀ i, i < 10 →
      |([0, 0.1, 0.2, 0.3, 0.4, 0.5, 0.6, 0.7, 0.8, 0.9] : List ℚ).getD i 0
          - (i : ℚ) * 0.1| ≤ 1 / 10 ^ 10) ∧
    (1 : ℚ) ∉ ([0, 0.1, 0.2, 0.3, 0.4, 0.5, 0.6, 0.7, 0.8, 0.9] : List ℚ) := by
  have hsamples : (RegularTimeLine.new 0 1 10).takeSamples 11
      = [0, 0.1, 0.2, 0.3, 0.4, 0.5, 0.6, 0.7, 0.8, 0.9] := by
    norm_num [RegularTimeLine.takeSamples, RegularTimeLine.next, RegularTimeLine.new]
  refine ⟨hsamples, ?_, by norm_num, ?_, by norm_num⟩
  · intro m hm
    exact takeSamples_stable 11 _ (by rw [hsamples]; norm_num) m hm
  · intro i hi
    interval_cases i <;> norm_num

/-- Witness for C2: fuel `42` yields the same samples as fuel `11`, and the
ninth sample is within `1e-10` of `9 * 0.1`. -/
theorem timeline_zero_one_ten_samples_witness :
    (RegularTimeLine.new 0 1 10).takeSamples 42
        = (RegularTimeLine.new 0 1 10).takeSamples 11 ∧
    |([0, 0.1, 0.2, 0.3, 0.4, 0.5, 0.6, 0.7, 0.8, 0.9] : List ℚ).getD 9 0
        - (9 : ℚ) * 0.1| ≤ 1 / 10 ^ 10 :=
  ⟨timeline_zero_one_ten_samples.2.1 42 (by norm_num),
    timeline_zero_one_ten_samples.2.2.2.1 9 (by norm_num)⟩

/-- C1: after `set_mass_density(d)` and `set_lengths(lx, ly, lz)` in either
order, `get()` returns a block whose mass is `d * lx * ly * lz`; in
particular density `1.2` with lengths `(1, 0.5, 0.25)` gives mass `0.15`
within `1e-12`. -/
theorem builder_mass_is_density_times_volume :
    (∀ d lx ly lz : ℚ,
      ((BlockBuilder.new.set_mass_density d).set_lengths lx ly lz).get.1.mass
          = d * (lx * ly * lz) ∧
      ((BlockBuilder.new.set_lengths lx ly lz).set_mass_density d).get.1.mass
          = d * (lx * ly * lz)) ∧
    |(((BlockBuilder.new.set_mass_density 1.2).set_lengths 1 0.5 0.25).get.1.mass
        - 0.15 : ℚ)| ≤ 1 / 10 ^ 12 := by
  constructor
  · intro d lx ly lz
    constructor <;>
      simp [BlockBuilder.get, BlockBuilder.set_lengths, BlockBuilder.set_mass_density,
        BlockBuilder.new, Block.get_volume]
  · norm_num [BlockBuilder.get, BlockBuilder.set_lengths, BlockBuilder.set_mass_density,
      BlockBuilder.new, Block.get_volume]

/-- C3: `RegularTimeLine::new(min, max, nstep)` with `nstep ≠ 0` starts at
`current_time = min` with `max_time = max`, and `time_step` is
`(max - min) / nstep` when `min < max` and `0` when `min ≥ max`. -/
theorem timeline_new_fields :
    ∀ (min max : ℚ) (nstep : ℕ), nstep ≠ 0 →
      (RegularTimeLine.new min max nstep).current_time = min ∧
      (RegularTimeLine.new min max nstep).max_time = max ∧
      (min < max →
        (RegularTimeLine.new min max nstep).time_step = (max - min) / (nstep : ℚ)) ∧
      (max ≤ min → (RegularTimeLine.new min max nstep).time_step = 0) := by
  intro tmin tmax nstep _
  refine ⟨rfl, rfl, ?_, ?_⟩
  · intro hlt
    simp [RegularTimeLine.new, hlt]
  · intro hle
    simp [RegularTimeLine.new, not_lt.mpr hle]

/-- Witness for C3 at `(0, 1, 10)` and `(1, 0, 10)`. -/
theorem timeline_new_fields_witness :
    (RegularTimeLine.new 0 1 10).time_step = 1 / 10 ∧
    (RegularTimeLine.new 1 0 10).time_step = 0 := by
  constructor
  · have h := (timeline_new_fields 0 1 10 (by norm_num)).2.2.1 (by norm_num)
    rw [h]; norm_num
  · exact (timeline_new_fields 1 0 10 (by norm_num)).2.2.2 (by norm_num)

/-- C4: for `min ≥ max` the timeline is exhausted from the start: `next()`
returns `None` leaving the state unchanged, and iteration yields zero
samples. -/
theorem timeline_degenerate_yields_nothing :
    ∀ (min max : ℚ) (nstep : ℕ), max ≤ min →
      (RegularTimeLine.new min max nstep).next =
        (none, RegularTimeLine.new min max nstep) ∧
      ∀ fuel, (RegularTimeLine.new min max nstep).takeSamples fuel = [] := by
  intro tmin tmax nstep h
  have hnext : (RegularTimeLine.new tmin tmax nstep).next =
      (none, RegularTimeLine.new tmin tmax nstep) := by
    simp [RegularTimeLine.next, RegularTimeLine.new, not_lt.mpr h]
  refine ⟨hnext, ?_⟩
  intro fuel
  cases fuel with
  | zero => rfl
  | succ n => simp [RegularTimeLine.takeSamples, hnext]

/-- Witness for C4 at `RegularTimeLine(1, 0, 10)`. -/
theorem timeline_degenerate_yields_nothing_witness :
    (RegularTimeLine.new 1 0 10).next = (none, RegularTimeLine.new 1 0 10) ∧
    (RegularTimeLine.new 1 0 10).takeSamples 5 = [] := by
  have h := timeline_degenerate_yields_nothing 1 0 10 (by norm_num)
  exact ⟨h.1, h.2 5⟩

/-- C5: `get()` resets the builder to the all-default state, so a second
`get()` with no intervening setter calls returns a block with mass `0`,
volume `0`, zero position and zero velocity. -/
theorem builder_get_resets :
    ∀ bb : BlockBuilder,
      bb.get.2 = BlockBuilder.new ∧
      bb.get.2.get.1.mass = 0 ∧
      bb.get.2.get.1.get_volume = 0 ∧
      bb.get.2.get.1.position = Pnt3d.default ∧
      bb.get.2.get.1.velocity = Vec3d.default := by
  intro bb
  refine ⟨rfl, ?_, ?_, rfl, rfl⟩
  · simp [BlockBuilder.get, BlockBuilder.new, Block.default, Block.get_volume]
  · simp [BlockBuilder.get, BlockBuilder.new, Block.default, Block.get_volume]

/-- C6: rendering emits, for each selected channel index in order, the
corresponding scalar (position x/y/z for indices 0-2, velocity x/y/z for
3-5) with exactly `decimal` fractional digits, space-wrapped, with no
separator between channel outputs; the concrete block with position
`(-0.1, 0, 0)` and velocity `(-1, 0, 0)` rendered with selector `"_"` and
3 decimals gives `" -0.100  0.000  0.000  -1.000  0.000  0.000 "`. -/
theorem formatter_renders_selected_channels :
    (∀ (b : Block) (s : String) (d : ℕ),
      (b.format s d).render =
        String.join ((BlockFormatter.parse_data_str s).map (writeIndex b d))) ∧
    (∀ (b : Block) (d : ℕ),
      writeIndex b d 0 = " " ++ fmtFixed b.position.coords.x d ++ " " ∧
      writeIndex b d 1 = " " ++ fmtFixed b.position.coords.y d ++ " " ∧
      writeIndex b d 2 = " " ++ fmtFixed b.position.coords.z d ++ " " ∧
      writeIndex b d 3 = " " ++ fmtFixed b.velocity.coords.x d ++ " " ∧
      writeIndex b d 4 = " " ++ fmtFixed b.velocity.coords.y d ++ " " ∧
      writeIndex b d 5 = " " ++ fmtFixed b.velocity.coords.z d ++ " ") ∧
    (∀ (q : ℚ) (d : ℕ), fracDigitCount (fmtFixed q (d + 1)) = d + 1) ∧
    ((⟨0, fun _ => 0, Pnt3d.new (-0.1) 0 0, Vec3d.new (-1) 0 0⟩ : Block).format
        "_" 3).render = " -0.100  0.000  0.000  -1.000  0.000  0.000 " := by
  refine ⟨?_, ?_, fracDigitCount_fmtFixed, ?_⟩
  · intro b s d
    exact render_eq_join (b.format s d)
  · intro b d
    exact ⟨rfl, rfl, rfl, rfl, rfl, rfl⟩
  · rw [render_eq_join]
    simp only [Block.format]
    rw [show BlockFormatter.parse_data_str "_" = [0, 1, 2, 3, 4, 5] from by decide]
    dsimp only [List.map_cons, List.map_nil, writeIndex, Pnt3d.new, Vec3d.new]
    rw [fmtFixed_neg_tenth, fmtFixed_zero, fmtFixed_neg_one]
    decide

/-- C7: unknown selector tokens contribute nothing: `"q _"` renders like
`"_"`, and deleting any token whose lowercase form is outside the
recognized set from a selector leaves the rendered output unchanged. -/
theorem formatter_ignores_unknown_tokens :
    (∀ (b : Block) (d : ℕ), (b.format "q _" d).render = (b.format "_" d).render) ∧
    (∀ (s s' t : String) (pre post : List String),
      splitWhitespace s = pre ++ t :: post →
      splitWhitespace s' = pre ++ post →
      toLowercase t ∉ (["_", "p", "v", "px", "py", "pz", "vx", "vy", "vz"] : List String) →
      ∀ (b : Block) (d : ℕ), (b.format s d).render = (b.format s' d).render) := by
  have hparse : ∀ (s s' t : String) (pre post : List String),
      splitWhitespace s = pre ++ t :: post →
      splitWhitespace s' = pre ++ post →
      toLowercase t ∉ (["_", "p", "v", "px", "py", "pz", "vx", "vy", "vz"] : List String) →
      BlockFormatter.parse_data_str s = BlockFormatter.parse_data_str s' := by
    intro s s' t pre post hs hs' ht
    rw [parse_data_str_eq_flatMap, parse_data_str_eq_flatMap, hs, hs']
    rw [List.flatMap_append, List.flatMap_append, List.flatMap_cons]
    rw [tokenIndices_eq_nil_of_unknown _ ht, List.nil_append]
  constructor
  · intro b d
    have h : BlockFormatter.parse_data_str "q _" = BlockFormatter.parse_data_str "_" :=
      hparse "q _" "_" "q" [] ["_"] (by decide) (by decide) (by decide)
    simp only [BlockFormatter.render, Block.format, h]
  · intro s s' t pre post hs hs' ht b d
    simp only [BlockFormatter.render, Block.format, hparse s s' t pre post hs hs' ht]

/-- Witness for C7: deleting the unknown token `"q"` from the selector
`"q _"` leaves the rendered output unchanged. -/
theorem formatter_ignores_unknown_tokens_witness :
    (Block.default.format "q _" 3).render = (Block.default.format "_" 3).render :=
  formatter_ignores_unknown_tokens.2 "q _" "_" "q" [] ["_"]
    (by decide) (by decide) (by decide) Block.default 3

/-- C9: every index produced by `parse_data_str` is in `0..=5`, so the
fall-through arm of the `Display` match is unreachable for formatters from
`Block::format` and every selected index is rendered. -/
theorem parse_indices_always_below_six :
    (∀ (s : String), ∀ i ∈ BlockFormatter.parse_data_str s, i < 6) ∧
    (∀ (b : Block) (s : String) (d : ℕ),
      (b.format s d).render =
        String.join ((BlockFormatter.parse_data_str s).map
          (fun i => " " ++ fmtFixed (channelValue b i) d ++ " "))) := by
  have hlt : ∀ (s : String), ∀ i ∈ BlockFormatter.parse_data_str s, i < 6 := by
    intro s i hi
    rw [parse_data_str_eq_flatMap, List.mem_flatMap] at hi
    obtain ⟨t, _, hmem⟩ := hi
    exact tokenIndices_lt_six _ _ hmem
  refine ⟨hlt, ?_⟩
  intro b s d
  rw [render_eq_join]
  simp only [Block.format]
  exact congrArg String.join
    (List.map_congr_left (fun i hi => writeIndex_eq_channel b d i (hlt s i hi)))

/-- Witness for C9 at selector `"_"` and index `5`. -/
theorem parse_indices_always_below_six_witness :
    5 ∈ BlockFormatter.parse_data_str "_" ∧ 5 < 6 :=
  ⟨by decide, parse_indices_always_below_six.1 "_" 5 (by decide)⟩

/-- An exhausted IEEE-model timeline stays exhausted. -/
lemma takeSamples64_of_next_none (tl : RegularTimeLine64) (h : tl.next.1 = none) :
    ∀ n, tl.takeSamples n = [] := by
  intro n
  cases n with
  | zero => rfl
  | succ n =>
    rcases htl : tl.next with ⟨o, tl'⟩
    rw [htl] at h
    simp only at h
    subst h
    simp [RegularTimeLine64.takeSamples, htl]

/-- A successful `next` contributes its sample to the iteration. -/
lemma takeSamples64_cons (n : ℕ) (tl tl' : RegularTimeLine64) (t : F64)
    (h : tl.next = (some t, tl')) :
    tl.takeSamples (n + 1) = t :: tl'.takeSamples n := by
  simp [RegularTimeLine64.takeSamples, h]

/-- C10: with `min < max` and `nstep = 0`, the constructed timeline has
`time_step = +infinity` and yields exactly one sample, `min`, the cursor
being infinite after the first `next()` call. -/
theorem timeline64_nstep_zero_yields_one_sample :
    ∀ a b : ℚ, a < b →
      (RegularTimeLine64.new (.fin a) (.fin b) 0).time_step = F64.inf ∧
      (RegularTimeLine64.new (.fin a) (.fin b) 0).next =
        (some (F64.fin a),
          { RegularTimeLine64.new (.fin a) (.fin b) 0 with current_time := F64.inf }) ∧
      (∀ n, (RegularTimeLine64.new (.fin a) (.fin b) 0).takeSamples (n + 2)
          = [F64.fin a]) := by
  intro a b hab
  have hblt : F64.blt (.fin a) (.fin b) = true := by simp [F64.blt, hab]
  have hstep : (RegularTimeLine64.new (.fin a) (.fin b) 0).time_step = F64.inf := by
    simp only [RegularTimeLine64.new, hblt, if_true]
    simp [F64.sub, F64.divNat, sub_pos.mpr hab]
  have hcur : (RegularTimeLine64.new (.fin a) (.fin b) 0).current_time = .fin a := rfl
  have hmax : (RegularTimeLine64.new (.fin a) (.fin b) 0).max_time = .fin b := rfl
  have hnext : (RegularTimeLine64.new (.fin a) (.fin b) 0).next =
      (some (F64.fin a),
        { RegularTimeLine64.new (.fin a) (.fin b) 0 with current_time := F64.inf }) := by
    simp only [RegularTimeLine64.next, hcur, hmax, hblt, if_true, hstep]
    simp [F64.add]
  have hnone : ({ RegularTimeLine64.new (.fin a) (.fin b) 0 with
      current_time := F64.inf } : RegularTimeLine64).next.1 = none := by
    simp [RegularTimeLine64.next, F64.blt]
  refine ⟨hstep, hnext, ?_⟩
  intro n
  show (RegularTimeLine64.new (.fin a) (.fin b) 0).takeSamples ((n + 1) + 1) = _
  rw [takeSamples64_cons (n + 1) _ _ _ hnext,
    takeSamples64_of_next_none _ hnone (n + 1)]

/-- Witness for C10 at `min = 0`, `max = 1`. -/
theorem timeline64_nstep_zero_yields_one_sample_witness :
    (RegularTimeLine64.new (.fin 0) (.fin 1) 0).time_step = F64.inf ∧
    (RegularTimeLine64.new (.fin 0) (.fin 1) 0).takeSamples 2 = [F64.fin 0] := by
  have h := timeline64_nstep_zero_yields_one_sample 0 1 (by norm_num)
  exact ⟨h.1, h.2.2 0⟩

/-- C8: the integration step adds `ts * velocity` to the position
componentwise and leaves mass, lengths and velocity untouched. -/
theorem forward_updates_position_only :
    ∀ (b : Block) (ts : ℚ),
      (forward b ts).position.coords.x = b.position.coords.x + ts * b.velocity.coords.x ∧
      (forward b ts).position.coords.y = b.position.coords.y + ts * b.velocity.coords.y ∧
      (forward b ts).position.coords.z = b.position.coords.z + ts * b.velocity.coords.z ∧
      (forward b ts).mass = b.mass ∧
      (forward b ts).lengths = b.lengths ∧
      (forward b ts).velocity = b.velocity :=
  fun _ _ => ⟨rfl, rfl, rfl, rfl, rfl, rfl⟩

end Rody
